import Mathlib

/-!
# measuretime.h: scope timing and named-interval timing

A shallow embedding of `src/measuretime.h` (namespace `mt`).

Modelling conventions

* A `time_point` of `mt::clock` is the integer number of clock ticks since the
  clock epoch; a clock reading `clock::now()` is an explicit argument `now`.
  The tick period of the clock is implementation defined and is the argument
  `clk : ratio` (for instance `1/1000000000` for a nanosecond clock).
* Signed chrono arithmetic (`rep` of a duration) is `Int`; signed overflow is
  undefined in C++ and is not modelled.  The `unsigned long long` statistics
  `sCalls` and `sTotal` are `Nat` reduced modulo `2^64`.
* The `double` average is a value of an arbitrary type `F` carrying the
  arithmetic the destructor uses; its textual rendering is an argument.
* A `std::map` is its lookup function; the static maps are explicit state.
* A sink is the text so far appended to it, together with the two facts the
  code reads off its type: `typeid(stream).hash_code()` and
  `std::is_base_of<std::ios_base, Stream>::value`.
-/

set_option linter.unusedSectionVars false
set_option linter.unusedVariables false

namespace mt

/-! ## Durations -/

/-- Compile-time rational `std::ratio<num, den>`: a tick period in seconds. -/
structure ratio where
  num : Nat
  den : Nat
deriving DecidableEq, Repr

/-- The duration types for which `duration_to_str` is specialised. -/
inductive Precision where
  | nanoseconds
  | microseconds
  | milliseconds
  | seconds
  | minutes
  | hours
deriving DecidableEq, Repr

/-- Tick period of each standard duration type. -/
def Precision.period : Precision → ratio
  | .nanoseconds => ⟨1, 1000000000⟩
  | .microseconds => ⟨1, 1000000⟩
  | .milliseconds => ⟨1, 1000⟩
  | .seconds => ⟨1, 1⟩
  | .minutes => ⟨60, 1⟩
  | .hours => ⟨3600, 1⟩

/-- Unit suffix of a duration type (`duration_to_str`, lines 24-56). -/
def duration_to_str : Precision → String
  | .nanoseconds => "ns"
  | .microseconds => "us"
  | .milliseconds => "ms"
  | .seconds => "s"
  | .minutes => "m"
  | .hours => "h"

/-- Numerator of the reduced conversion factor `clk / P.period`. -/
def cast_num (clk : ratio) (P : Precision) : Nat :=
  (clk.num * P.period.den) / Nat.gcd (clk.num * P.period.den) (clk.den * P.period.num)

/-- Denominator of the reduced conversion factor `clk / P.period`. -/
def cast_den (clk : ratio) (P : Precision) : Nat :=
  (clk.den * P.period.num) / Nat.gcd (clk.num * P.period.den) (clk.den * P.period.num)

/-- The count of `std::chrono::duration_cast<P>(d)` for a duration of `d` ticks of
period `clk`: multiplication by the conversion factor, truncated toward zero. -/
def duration_cast (clk : ratio) (P : Precision) (d : Int) : Int :=
  (d * (cast_num clk P : Int)).tdiv (cast_den clk P : Int)

/-! ## Machine integers -/

/-- Reduction of an `unsigned long long` result modulo `2^64`. -/
def wrap64 (n : Nat) : Nat := n % 18446744073709551616

/-- Conversion of a signed count to `unsigned long long`. -/
def to_ull (d : Int) : Nat := (d % 18446744073709551616).toNat

/-! ## `std::map` -/

/-- A `std::map<K, V>`, represented by its lookup function. -/
abbrev map (K V : Type) := K → Option V

/-- The empty map. -/
def map.empty {K V : Type} : map K V := fun _ => none

/-- Lookup `m.find(k)`: `none` stands for `m.cend()`. -/
def map.find {K V : Type} (m : map K V) (k : K) : Option V := m k

/-- Value read by `m[k]`: the stored value, or the value-initialised default. -/
def map.index {K V : Type} [Zero V] (m : map K V) (k : K) : V := (m k).getD 0

/-- Store `m[k] = v`: inserts or overwrites. -/
def map.assign {K V : Type} [DecidableEq K] (m : map K V) (k : K) (v : V) : map K V :=
  fun j => if j = k then some v else m j

/-- Removal `m.erase(it)` of the entry found under `k`. -/
def map.erase {K V : Type} [DecidableEq K] (m : map K V) (k : K) : map K V :=
  fun j => if j = k then none else m j

/-! ## Sinks -/

/-- An output sink. -/
structure Stream where
  /-- Value of `typeid(stream).hash_code()`. -/
  hash_code : Nat
  /-- Value of `std::is_base_of<std::ios_base, Stream>::value`. -/
  is_ios_base : Bool
  /-- Text appended so far. -/
  out : String
deriving DecidableEq, Repr

/-- Stream insertion `stream << t` of already rendered text. -/
def Stream.shl : Stream → String → Stream
  | ⟨hash_code, is_ios_base, out⟩, t => ⟨hash_code, is_ios_base, out ++ t⟩

/-- The conditional newline that closes every report (lines 83-86, 123-126, 142-145). -/
def Stream.endl (s : Stream) : Stream := if s.is_ios_base then s.shl "\n" else s

/-! ## `scope_time` -/

/-- The three function-local static maps of `scope_time::~scope_time`. -/
structure Statics (Scope F : Type) where
  sCalls : map Scope Nat
  sAvg : map Scope F
  sTotal : map Scope Nat

/-- No label has been reported yet. -/
def Statics.init {Scope F : Type} : Statics Scope F := ⟨map.empty, map.empty, map.empty⟩

section scope_time

variable {Scope F : Type} [DecidableEq Scope] [ToString Scope]
  [Zero F] [NatCast F] [IntCast F] [Add F] [Mul F] [Div F]

/-- Body of `scope_time::~scope_time` (lines 72-86) for an elapsed count `duration`:
update of the statistics of `mScope`, then the report line. -/
def scope_time.report (P : Precision) (showF : F → String) (st : Statics Scope F)
    (mScope : Scope) (mStream : Stream) (duration : Int) : Statics Scope F × Stream :=
  let sAvg := st.sAvg.assign mScope
    ((((st.sCalls.index mScope : Nat) : F) * st.sAvg.index mScope + ((duration : Int) : F))
      / ((wrap64 (st.sCalls.index mScope + 1) : Nat) : F))
  let sCalls := st.sCalls.assign mScope (wrap64 (st.sCalls.index mScope + 1))
  let sTotal := st.sTotal.assign mScope (wrap64 (st.sTotal.index mScope + to_ull duration))
  let duration_str := duration_to_str P
  let mStream := ((((((((((((((((mStream.shl "'").shl (toString mScope)).shl "'").shl " ").shl
    (toString duration)).shl " [").shl duration_str).shl "]").shl " avg. ").shl
    (showF (sAvg.index mScope))).shl " [").shl duration_str).shl "]").shl " cnt. ").shl
    (toString (sCalls.index mScope))).shl " ttl. ").shl (toString (sTotal.index mScope))
  let mStream := ((mStream.shl " [").shl duration_str).shl "]"
  (⟨sCalls, sAvg, sTotal⟩, mStream.endl)

/-- Destructor `scope_time::~scope_time` (lines 68-87) of a timer constructed at clock
reading `mBegin` and destroyed at clock reading `now`. -/
def scope_time.destructor (clk : ratio) (P : Precision) (showF : F → String)
    (st : Statics Scope F) (mScope : Scope) (mStream : Stream) (mBegin now : Int) :
    Statics Scope F × Stream :=
  scope_time.report P showF st mScope mStream (duration_cast clk P (now - mBegin))

/-- Successive reports on one label with the elapsed counts `ds`, in order. -/
def scope_time.reports (P : Precision) (showF : F → String) (mScope : Scope) :
    Statics Scope F × Stream → List Int → Statics Scope F × Stream
  | s, [] => s
  | s, d :: ds =>
    scope_time.reports P showF mScope (scope_time.report P showF s.1 mScope s.2 d) ds

end scope_time

/-! ## `time_tracker` -/

/-- Outcome of a `time_tracker` operation: the static map afterwards, the sink
afterwards, and the returned count. -/
structure Outcome (Key : Type) where
  sBeginPointByKey : map (Key × Nat) Int
  stream : Stream
  value : Int

namespace time_tracker

variable {Key : Type} [DecidableEq Key] [ToString Key]

/-- Operation `time_tracker::begin` (lines 105-111) at clock reading `now`. -/
def begin (clk : ratio) (P : Precision) (sBeginPointByKey : map (Key × Nat) Int)
    (key : Key) (stream : Stream) (now : Int) : Outcome Key :=
  let mapKey := (key, stream.hash_code)
  { sBeginPointByKey := sBeginPointByKey.assign mapKey now
    stream := stream
    value := duration_cast clk P now }

/-- Operation `time_tracker::log` (lines 113-130) at clock reading `now`. -/
def log (clk : ratio) (P : Precision) (sBeginPointByKey : map (Key × Nat) Int)
    (key : Key) (stream : Stream) (now : Int) : Outcome Key :=
  let mapKey := (key, stream.hash_code)
  match sBeginPointByKey.find mapKey with
  | some second =>
    let elapsed := duration_cast clk P (now - second)
    let stream := ((((((stream.shl "'").shl (toString key)).shl "'").shl " log: ").shl
      (toString elapsed)).shl " [").shl (duration_to_str P)
    let stream := (stream.shl "]").endl
    { sBeginPointByKey := sBeginPointByKey, stream := stream, value := elapsed }
  | none => { sBeginPointByKey := sBeginPointByKey, stream := stream, value := 0 }

/-- Operation `time_tracker::end` (lines 132-150) at clock reading `now`. -/
def end_ (clk : ratio) (P : Precision) (sBeginPointByKey : map (Key × Nat) Int)
    (key : Key) (stream : Stream) (now : Int) : Outcome Key :=
  let mapKey := (key, stream.hash_code)
  match sBeginPointByKey.find mapKey with
  | some second =>
    let elapsed := duration_cast clk P (now - second)
    let stream := ((((((stream.shl "'").shl (toString key)).shl "'").shl " end: ").shl
      (toString elapsed)).shl " [").shl (duration_to_str P)
    let stream := (stream.shl "]").endl
    { sBeginPointByKey := sBeginPointByKey.erase mapKey, stream := stream, value := elapsed }
  | none => { sBeginPointByKey := sBeginPointByKey, stream := stream, value := 0 }

/-- Successive `log` calls on one key and one sink at the clock readings `ts`: the
final map and sink, and the returned counts in order. -/
def logs (clk : ratio) (P : Precision) (key : Key) :
    map (Key × Nat) Int → Stream → List Int → map (Key × Nat) Int × Stream × List Int
  | m, s, [] => (m, s, [])
  | m, s, t :: ts =>
    let o := log clk P m key s t
    let r := logs clk P key o.sBeginPointByKey o.stream ts
    (r.1, r.2.1, o.value :: r.2.2)

end time_tracker

/-- A printer of exact averages, standing in the examples for the insertion of a
`double` into the sink. -/
def exact_avg (q : ℚ) : String := toString q.num ++ "/" ++ toString q.den

/-- A clock whose tick is one nanosecond. -/
def nano_clock : ratio := ⟨1, 1000000000⟩

/-- A line-oriented stream such as `std::cout`. -/
def cout : Stream := ⟨1, true, ""⟩

/-- A sink of another type, not derived from `std::ios_base`. -/
def qdebug : Stream := ⟨2, false, ""⟩

/-! ## Basic facts -/

theorem tdiv_mono {a b : Int} (c : Nat) (h : a ≤ b) : a.tdiv (c : Int) ≤ b.tdiv (c : Int) := by
  rcases Nat.eq_zero_or_pos c with hc | hc
  · subst hc; simp
  have hc0 : (0 : Int) < (c : Int) := by exact_mod_cast hc
  by_cases ha : 0 ≤ a
  · have hb : 0 ≤ b := le_trans ha h
    rw [Int.tdiv_eq_ediv ha hc0.le, Int.tdiv_eq_ediv hb hc0.le]
    exact Int.ediv_le_ediv hc0 h
  · push_neg at ha
    by_cases hb : 0 ≤ b
    · have h1 : a.tdiv (c : Int) ≤ 0 := by
        have := Int.tdiv_nonneg (show 0 ≤ -a by omega) hc0.le
        rw [Int.neg_tdiv] at this
        omega
      exact le_trans h1 (Int.tdiv_nonneg hb hc0.le)
    · push_neg at hb
      have h1 : (-b).tdiv (c : Int) ≤ (-a).tdiv (c : Int) := by
        rw [Int.tdiv_eq_ediv (by omega) hc0.le, Int.tdiv_eq_ediv (by omega) hc0.le]
        exact Int.ediv_le_ediv hc0 (by omega)
      rw [Int.neg_tdiv, Int.neg_tdiv] at h1
      omega

theorem duration_cast_mono (clk : ratio) (P : Precision) {a b : Int} (h : a ≤ b) :
    duration_cast clk P a ≤ duration_cast clk P b := by
  unfold duration_cast
  apply tdiv_mono
  exact Int.mul_le_mul_of_nonneg_right h (Int.ofNat_nonneg _)

theorem duration_cast_nonneg (clk : ratio) (P : Precision) {a : Int} (h : 0 ≤ a) :
    0 ≤ duration_cast clk P a := by
  unfold duration_cast
  exact Int.tdiv_nonneg (Int.mul_nonneg h (Int.ofNat_nonneg _)) (Int.ofNat_nonneg _)

@[simp] theorem map.find_assign_self {K V : Type} [DecidableEq K] (m : map K V) (k : K) (v : V) :
    (m.assign k v).find k = some v := by
  simp [map.find, map.assign]

theorem map.find_assign_ne {K V : Type} [DecidableEq K] (m : map K V) {k j : K} (v : V)
    (h : j ≠ k) : (m.assign k v).find j = m.find j := by
  simp [map.find, map.assign, h]

@[simp] theorem map.find_erase_self {K V : Type} [DecidableEq K] (m : map K V) (k : K) :
    (m.erase k).find k = none := by
  simp [map.find, map.erase]

theorem map.find_erase_ne {K V : Type} [DecidableEq K] (m : map K V) {k j : K}
    (h : j ≠ k) : (m.erase k).find j = m.find j := by
  simp [map.find, map.erase, h]

@[simp] theorem map.index_assign_self {K V : Type} [DecidableEq K] [Zero V] (m : map K V)
    (k : K) (v : V) : (m.assign k v).index k = v := by
  simp [map.index, map.assign]

theorem map.index_assign_ne {K V : Type} [DecidableEq K] [Zero V] (m : map K V) {k j : K}
    (v : V) (h : j ≠ k) : (m.assign k v).index j = m.index j := by
  simp [map.index, map.assign, h]

@[simp] theorem Stream.shl_hash_code (s : Stream) (t : String) :
    (s.shl t).hash_code = s.hash_code := by
  cases s; rfl

@[simp] theorem Stream.shl_is_ios_base (s : Stream) (t : String) :
    (s.shl t).is_ios_base = s.is_ios_base := by
  cases s; rfl

@[simp] theorem Stream.shl_out (s : Stream) (t : String) : (s.shl t).out = s.out ++ t := by
  cases s; rfl

@[simp] theorem Stream.endl_hash_code (s : Stream) : s.endl.hash_code = s.hash_code := by
  unfold Stream.endl; split <;> rfl

@[simp] theorem Stream.endl_is_ios_base (s : Stream) : s.endl.is_ios_base = s.is_ios_base := by
  unfold Stream.endl; split <;> rfl

theorem Stream.endl_out (s : Stream) :
    s.endl.out = s.out ++ (if s.is_ios_base then "\n" else "") := by
  unfold Stream.endl; split <;> simp

namespace time_tracker

variable {Key : Type} [DecidableEq Key] [ToString Key]

theorem log_none (clk : ratio) (P : Precision) (m : map (Key × Nat) Int) (key : Key)
    (stream : Stream) (now : Int) (h : m.find (key, stream.hash_code) = none) :
    log clk P m key stream now = ⟨m, stream, 0⟩ := by
  simp only [log, h]

theorem end_none (clk : ratio) (P : Precision) (m : map (Key × Nat) Int) (key : Key)
    (stream : Stream) (now : Int) (h : m.find (key, stream.hash_code) = none) :
    end_ clk P m key stream now = ⟨m, stream, 0⟩ := by
  simp only [end_, h]

theorem log_registry (clk : ratio) (P : Precision) (m : map (Key × Nat) Int) (key : Key)
    (stream : Stream) (now : Int) : (log clk P m key stream now).sBeginPointByKey = m := by
  cases h : m.find (key, stream.hash_code) <;> simp only [log, h]

theorem log_hash_code (clk : ratio) (P : Precision) (m : map (Key × Nat) Int) (key : Key)
    (stream : Stream) (now : Int) :
    (log clk P m key stream now).stream.hash_code = stream.hash_code := by
  cases h : m.find (key, stream.hash_code) <;> simp [log, h]

theorem end_hash_code (clk : ratio) (P : Precision) (m : map (Key × Nat) Int) (key : Key)
    (stream : Stream) (now : Int) :
    (end_ clk P m key stream now).stream.hash_code = stream.hash_code := by
  cases h : m.find (key, stream.hash_code) <;> simp [end_, h]

theorem log_value (clk : ratio) (P : Precision) (m : map (Key × Nat) Int) (key : Key)
    (stream : Stream) (now t0 : Int) (h : m.find (key, stream.hash_code) = some t0) :
    (log clk P m key stream now).value = duration_cast clk P (now - t0) := by
  simp only [log, h]

theorem end_value (clk : ratio) (P : Precision) (m : map (Key × Nat) Int) (key : Key)
    (stream : Stream) (now t0 : Int) (h : m.find (key, stream.hash_code) = some t0) :
    (end_ clk P m key stream now).value = duration_cast clk P (now - t0) := by
  simp only [end_, h]

theorem end_registry (clk : ratio) (P : Precision) (m : map (Key × Nat) Int) (key : Key)
    (stream : Stream) (now : Int) :
    (end_ clk P m key stream now).sBeginPointByKey = m.erase (key, stream.hash_code) := by
  cases h : m.find (key, stream.hash_code) with
  | some t0 => simp only [end_, h]
  | none =>
    simp only [end_, h]
    funext j
    by_cases hj : j = (key, stream.hash_code)
    · subst hj; simpa [map.erase, map.find] using h
    · simp [map.erase, hj]

theorem log_out (clk : ratio) (P : Precision) (m : map (Key × Nat) Int) (key : Key)
    (stream : Stream) (now t0 : Int) (h : m.find (key, stream.hash_code) = some t0) :
    (log clk P m key stream now).stream.out = stream.out ++ ("'" ++ toString key ++ "'"
      ++ " log: " ++ toString (duration_cast clk P (now - t0)) ++ " [" ++ duration_to_str P
      ++ "]" ++ (if stream.is_ios_base then "\n" else "")) := by
  simp only [log, h, Stream.endl_out, Stream.shl_out, Stream.shl_is_ios_base,
    String.append_assoc]

theorem end_out (clk : ratio) (P : Precision) (m : map (Key × Nat) Int) (key : Key)
    (stream : Stream) (now t0 : Int) (h : m.find (key, stream.hash_code) = some t0) :
    (end_ clk P m key stream now).stream.out = stream.out ++ ("'" ++ toString key ++ "'"
      ++ " end: " ++ toString (duration_cast clk P (now - t0)) ++ " [" ++ duration_to_str P
      ++ "]" ++ (if stream.is_ios_base then "\n" else "")) := by
  simp only [end_, h, Stream.endl_out, Stream.shl_out, Stream.shl_is_ios_base,
    String.append_assoc]

theorem logs_pending (clk : ratio) (P : Precision) (key : Key) (t0 : Int) (ts : List Int) :
    ∀ (m : map (Key × Nat) Int) (s : Stream), m.find (key, s.hash_code) = some t0 →
      (logs clk P key m s ts).1 = m ∧
      (logs clk P key m s ts).2.2 = ts.map (fun t => duration_cast clk P (t - t0)) := by
  induction ts with
  | nil => intro m s _; exact ⟨rfl, rfl⟩
  | cons t ts ih =>
    intro m s h
    have hm := log_registry clk P m key s t
    have hh := log_hash_code clk P m key s t
    have hv := log_value clk P m key s t t0 h
    have := ih (log clk P m key s t).sBeginPointByKey (log clk P m key s t).stream
      (by rw [hm, hh]; exact h)
    simp only [logs, List.map_cons]
    refine ⟨?_, ?_⟩
    · rw [this.1, hm]
    · rw [this.2, hv]

end time_tracker

/-! ## The interval tracker -/

section tracker_claims

variable {Key : Type} [DecidableEq Key] [ToString Key]

/-- C3: when no pending entry exists under the combined key, `time_tracker::log` and
`time_tracker::end` each leave the sink exactly as it was (nothing is written), return 0,
and leave the map of pending entries unchanged; both are total functions, so neither
can fail. -/
theorem tracker_miss_is_noop (clk : ratio) (P : Precision) (m : map (Key × Nat) Int)
    (key : Key) (stream : Stream) (now : Int)
    (h : m.find (key, stream.hash_code) = none) :
    ((time_tracker.log clk P m key stream now).stream = stream ∧
      (time_tracker.log clk P m key stream now).value = 0 ∧
      (time_tracker.log clk P m key stream now).sBeginPointByKey = m) ∧
    ((time_tracker.end_ clk P m key stream now).stream = stream ∧
      (time_tracker.end_ clk P m key stream now).value = 0 ∧
      (time_tracker.end_ clk P m key stream now).sBeginPointByKey = m) := by
  rw [time_tracker.log_none clk P m key stream now h,
    time_tracker.end_none clk P m key stream now h]
  exact ⟨⟨rfl, rfl, rfl⟩, ⟨rfl, rfl, rfl⟩⟩

theorem tracker_miss_is_noop_witness :
    (map.empty : map (String × Nat) Int).find ("load", cout.hash_code) = none ∧
    ((time_tracker.log nano_clock .microseconds map.empty "load" cout 5000).stream = cout ∧
      (time_tracker.log nano_clock .microseconds map.empty "load" cout 5000).value = 0 ∧
      (time_tracker.log nano_clock .microseconds map.empty "load" cout 5000).sBeginPointByKey
        = map.empty) ∧
    ((time_tracker.end_ nano_clock .microseconds map.empty "load" cout 5000).stream = cout ∧
      (time_tracker.end_ nano_clock .microseconds map.empty "load" cout 5000).value = 0 ∧
      (time_tracker.end_ nano_clock .microseconds map.empty "load" cout 5000).sBeginPointByKey
        = map.empty) :=
  ⟨rfl, tracker_miss_is_noop nano_clock .microseconds map.empty "load" cout 5000 rfl⟩

/-- C4: `time_tracker::log` returns the map of pending entries it was given, whatever
the key, sink and map; hence after `begin(k)` at clock reading `t0`, any sequence of
`log(k)` calls at clock readings `ts` returns, call by call, the time from `t0` to that
reading truncated to the precision, and the map is still the one `begin` produced, with
`t0` stored for `k`. -/
theorem log_keeps_pending (clk : ratio) (P : Precision) (m : map (Key × Nat) Int)
    (key : Key) (stream : Stream) (now t0 : Int) (ts : List Int) :
    (time_tracker.log clk P m key stream now).sBeginPointByKey = m ∧
    (time_tracker.logs clk P key
        (time_tracker.begin clk P m key stream t0).sBeginPointByKey stream ts).2.2
      = ts.map (fun t => duration_cast clk P (t - t0)) ∧
    (time_tracker.logs clk P key
        (time_tracker.begin clk P m key stream t0).sBeginPointByKey stream ts).1
      = (time_tracker.begin clk P m key stream t0).sBeginPointByKey ∧
    (time_tracker.logs clk P key
        (time_tracker.begin clk P m key stream t0).sBeginPointByKey stream ts).1.find
      (key, stream.hash_code) = some t0 := by
  have hb : (time_tracker.begin clk P m key stream t0).sBeginPointByKey.find
      (key, stream.hash_code) = some t0 := by
    simp [time_tracker.begin]
  have hl := time_tracker.logs_pending clk P key t0 ts _ stream hb
  refine ⟨time_tracker.log_registry clk P m key stream now, hl.2, hl.1, ?_⟩
  rw [hl.1]
  exact hb

/-- C5: for a key with a pending entry, `time_tracker::end` removes that entry, so a
following `log` or `end` on the same key and sink (no `begin` in between), at any clock
reading, writes nothing and returns 0. -/
theorem end_removes_pending (clk : ratio) (P : Precision) (m : map (Key × Nat) Int)
    (key : Key) (stream : Stream) (now t0 later : Int)
    (h : m.find (key, stream.hash_code) = some t0) :
    (time_tracker.end_ clk P m key stream now).sBeginPointByKey.find
      (key, stream.hash_code) = none ∧
    ((time_tracker.log clk P (time_tracker.end_ clk P m key stream now).sBeginPointByKey key
        (time_tracker.end_ clk P m key stream now).stream later).stream
        = (time_tracker.end_ clk P m key stream now).stream ∧
      (time_tracker.log clk P (time_tracker.end_ clk P m key stream now).sBeginPointByKey key
        (time_tracker.end_ clk P m key stream now).stream later).value = 0) ∧
    ((time_tracker.end_ clk P (time_tracker.end_ clk P m key stream now).sBeginPointByKey key
        (time_tracker.end_ clk P m key stream now).stream later).stream
        = (time_tracker.end_ clk P m key stream now).stream ∧
      (time_tracker.end_ clk P (time_tracker.end_ clk P m key stream now).sBeginPointByKey key
        (time_tracker.end_ clk P m key stream now).stream later).value = 0) := by
  have hgone : (time_tracker.end_ clk P m key stream now).sBeginPointByKey.find
      (key, stream.hash_code) = none := by
    rw [time_tracker.end_registry]
    exact map.find_erase_self m _
  have hgone2 : (time_tracker.end_ clk P m key stream now).sBeginPointByKey.find
      (key, (time_tracker.end_ clk P m key stream now).stream.hash_code) = none := by
    rw [time_tracker.end_hash_code]
    exact hgone
  refine ⟨hgone, ?_, ?_⟩
  · rw [time_tracker.log_none clk P _ key _ later hgone2]
    exact ⟨rfl, rfl⟩
  · rw [time_tracker.end_none clk P _ key _ later hgone2]
    exact ⟨rfl, rfl⟩

theorem end_removes_pending_witness :
    (time_tracker.begin nano_clock .microseconds map.empty "load" cout 0).sBeginPointByKey.find
      ("load", cout.hash_code) = some 0 ∧
    (time_tracker.end_ nano_clock .microseconds
      (time_tracker.begin nano_clock .microseconds map.empty "load" cout 0).sBeginPointByKey
      "load" cout 5000000).sBeginPointByKey.find ("load", cout.hash_code) = none ∧
    (time_tracker.end_ nano_clock .microseconds
      (time_tracker.end_ nano_clock .microseconds
        (time_tracker.begin nano_clock .microseconds map.empty "load" cout 0).sBeginPointByKey
        "load" cout 5000000).sBeginPointByKey "load"
      (time_tracker.end_ nano_clock .microseconds
        (time_tracker.begin nano_clock .microseconds map.empty "load" cout 0).sBeginPointByKey
        "load" cout 5000000).stream 6000000).value = 0 :=
  ⟨rfl,
    (end_removes_pending nano_clock .microseconds
      (time_tracker.begin nano_clock .microseconds map.empty "load" cout 0).sBeginPointByKey
      "load" cout 5000000 0 6000000 rfl).1,
    (end_removes_pending nano_clock .microseconds
      (time_tracker.begin nano_clock .microseconds map.empty "load" cout 0).sBeginPointByKey
      "load" cout 5000000 0 6000000 rfl).2.2.2⟩

/-- C6: two tracked identities that differ in the key value, or that share the key value
but whose sinks have different type identities, are independent: `begin`, `log` and
`end` on the first leave the pending entry of the second (its presence and its start)
as it was; in particular after `begin(k1)`, `begin(k2)`, `end(k1)` the second is still
pending with the start its own `begin` stored. -/
theorem distinct_identities_independent (clk : ratio) (P : Precision)
    (m : map (Key × Nat) Int) (k1 k2 : Key) (s1 s2 : Stream) (now t1 t2 t3 : Int)
    (h : k1 ≠ k2 ∨ s1.hash_code ≠ s2.hash_code) :
    (time_tracker.begin clk P m k1 s1 now).sBeginPointByKey.find (k2, s2.hash_code)
      = m.find (k2, s2.hash_code) ∧
    (time_tracker.log clk P m k1 s1 now).sBeginPointByKey.find (k2, s2.hash_code)
      = m.find (k2, s2.hash_code) ∧
    (time_tracker.end_ clk P m k1 s1 now).sBeginPointByKey.find (k2, s2.hash_code)
      = m.find (k2, s2.hash_code) ∧
    (time_tracker.end_ clk P
      (time_tracker.begin clk P (time_tracker.begin clk P m k1 s1 t1).sBeginPointByKey
        k2 s2 t2).sBeginPointByKey k1 s1 t3).sBeginPointByKey.find (k2, s2.hash_code)
      = some t2 := by
  have hne : (k2, s2.hash_code) ≠ (k1, s1.hash_code) := by
    intro heq
    injection heq with ha hb
    rcases h with h | h
    · exact h ha.symm
    · exact h hb.symm
  refine ⟨?_, ?_, ?_, ?_⟩
  · exact map.find_assign_ne m now hne
  · rw [time_tracker.log_registry]
  · rw [time_tracker.end_registry]
    exact map.find_erase_ne m hne
  · rw [time_tracker.end_registry, map.find_erase_ne _ hne]
    simp [time_tracker.begin]

theorem distinct_identities_independent_witness :
    (("a" : String) ≠ "b" ∨ cout.hash_code ≠ cout.hash_code) ∧
    (time_tracker.end_ nano_clock .microseconds
      (time_tracker.begin nano_clock .microseconds
        (time_tracker.begin nano_clock .microseconds map.empty "a" cout 10).sBeginPointByKey
        "b" cout 20).sBeginPointByKey "a" cout 30).sBeginPointByKey.find ("b", cout.hash_code)
      = some 20 :=
  ⟨Or.inl (by decide), (distinct_identities_independent nano_clock .microseconds map.empty
    "a" "b" cout cout 0 10 20 30 (Or.inl (by decide))).2.2.2⟩

/-- C7: `time_tracker::begin` at clock reading `now` stores `now` as the pending start
under the combined key whatever the map held before, leaves the sink untouched and
returns `now` (the time since the clock epoch) truncated to the precision; a second
`begin` at `t1` replaces the first, so a later `log` or `end` measures from `t1`. -/
theorem begin_stores_now (clk : ratio) (P : Precision) (m : map (Key × Nat) Int)
    (key : Key) (stream : Stream) (now t1 t : Int) :
    (time_tracker.begin clk P m key stream now).sBeginPointByKey.find
      (key, stream.hash_code) = some now ∧
    (time_tracker.begin clk P m key stream now).stream = stream ∧
    (time_tracker.begin clk P m key stream now).value = duration_cast clk P now ∧
    (time_tracker.log clk P
      (time_tracker.begin clk P (time_tracker.begin clk P m key stream now).sBeginPointByKey
        key stream t1).sBeginPointByKey key stream t).value = duration_cast clk P (t - t1) ∧
    (time_tracker.end_ clk P
      (time_tracker.begin clk P (time_tracker.begin clk P m key stream now).sBeginPointByKey
        key stream t1).sBeginPointByKey key stream t).value = duration_cast clk P (t - t1) := by
  refine ⟨by simp [time_tracker.begin], rfl, rfl, ?_, ?_⟩
  · exact time_tracker.log_value clk P _ key stream t t1 (by simp [time_tracker.begin])
  · exact time_tracker.end_value clk P _ key stream t t1 (by simp [time_tracker.begin])

/-- C8: for a key pending since `t0`, at clock reading `now`, `time_tracker::log`
appends exactly `'<key>' log: <e> [<unit>]` and `time_tracker::end` appends exactly
`'<key>' end: <e> [<unit>]`, where `e` is `now - t0` truncated to the precision and is
also the returned value, `<unit>` is the suffix of the precision (ns, us, ms, s, m, h)
whatever `e` is, and one newline follows exactly when the sink derives from
`std::ios_base`. -/
theorem tracker_report_text (clk : ratio) (P : Precision) (m : map (Key × Nat) Int)
    (key : Key) (stream : Stream) (now t0 : Int)
    (h : m.find (key, stream.hash_code) = some t0) :
    (time_tracker.log clk P m key stream now).stream.out
      = stream.out ++ ("'" ++ toString key ++ "'" ++ " log: "
          ++ toString (duration_cast clk P (now - t0)) ++ " [" ++ duration_to_str P ++ "]"
          ++ (if stream.is_ios_base then "\n" else "")) ∧
    (time_tracker.log clk P m key stream now).value = duration_cast clk P (now - t0) ∧
    (time_tracker.end_ clk P m key stream now).stream.out
      = stream.out ++ ("'" ++ toString key ++ "'" ++ " end: "
          ++ toString (duration_cast clk P (now - t0)) ++ " [" ++ duration_to_str P ++ "]"
          ++ (if stream.is_ios_base then "\n" else "")) ∧
    (time_tracker.end_ clk P m key stream now).value = duration_cast clk P (now - t0) ∧
    [Precision.nanoseconds, Precision.microseconds, Precision.milliseconds,
      Precision.seconds, Precision.minutes, Precision.hours].map duration_to_str
      = ["ns", "us", "ms", "s", "m", "h"] :=
  ⟨time_tracker.log_out clk P m key stream now t0 h,
    time_tracker.log_value clk P m key stream now t0 h,
    time_tracker.end_out clk P m key stream now t0 h,
    time_tracker.end_value clk P m key stream now t0 h, rfl⟩

theorem tracker_report_text_witness :
    (time_tracker.begin nano_clock .microseconds map.empty "load" cout 0).sBeginPointByKey.find
      ("load", cout.hash_code) = some 0 ∧
    (time_tracker.log nano_clock .microseconds
      (time_tracker.begin nano_clock .microseconds map.empty "load" cout 0).sBeginPointByKey
      "load" cout 3000000).stream.out = "'load' log: 3000 [us]\n" ∧
    (time_tracker.end_ nano_clock .microseconds
      (time_tracker.begin nano_clock .microseconds map.empty "load" cout 0).sBeginPointByKey
      "load" cout 5000000).stream.out = "'load' end: 5000 [us]\n" ∧
    (time_tracker.end_ nano_clock .microseconds
      (time_tracker.begin nano_clock .microseconds map.empty "load" qdebug 0).sBeginPointByKey
      "load" qdebug 5000000).stream.out = "'load' end: 5000 [us]" :=
  ⟨rfl,
    (tracker_report_text nano_clock .microseconds
      (time_tracker.begin nano_clock .microseconds map.empty "load" cout 0).sBeginPointByKey
      "load" cout 3000000 0 rfl).1.trans (by decide),
    (tracker_report_text nano_clock .microseconds
      (time_tracker.begin nano_clock .microseconds map.empty "load" cout 0).sBeginPointByKey
      "load" cout 5000000 0 rfl).2.2.1.trans (by decide),
    (tracker_report_text nano_clock .microseconds
      (time_tracker.begin nano_clock .microseconds map.empty "load" qdebug 0).sBeginPointByKey
      "load" qdebug 5000000 0 rfl).2.2.1.trans (by decide)⟩

/-- C10: for clock readings `t0 ≤ t1 ≤ t2 ≤ t3`, the sequence `begin(k)` at `t0`,
`log(k)` at `t1`, `log(k)` at `t2`, `end(k)` at `t3` returns `e1`, `e2`, `e3`, each the
time from `t0` to its own reading truncated to the precision, with
`0 ≤ e1 ≤ e2 ≤ e3`. -/
theorem elapsed_nondecreasing (clk : ratio) (P : Precision) (m : map (Key × Nat) Int)
    (key : Key) (stream : Stream) (t0 t1 t2 t3 : Int)
    (h01 : t0 ≤ t1) (h12 : t1 ≤ t2) (h23 : t2 ≤ t3) :
    let b := time_tracker.begin clk P m key stream t0
    let l1 := time_tracker.log clk P b.sBeginPointByKey key b.stream t1
    let l2 := time_tracker.log clk P l1.sBeginPointByKey key l1.stream t2
    let e := time_tracker.end_ clk P l2.sBeginPointByKey key l2.stream t3
    l1.value = duration_cast clk P (t1 - t0) ∧
    l2.value = duration_cast clk P (t2 - t0) ∧
    e.value = duration_cast clk P (t3 - t0) ∧
    0 ≤ l1.value ∧ l1.value ≤ l2.value ∧ l2.value ≤ e.value := by
  intro b l1 l2 e
  have hb : b.sBeginPointByKey.find (key, b.stream.hash_code) = some t0 := by
    simp [b, time_tracker.begin]
  have h1 : l1.value = duration_cast clk P (t1 - t0) :=
    time_tracker.log_value clk P _ key _ t1 t0 hb
  have hl1 : l1.sBeginPointByKey.find (key, l1.stream.hash_code) = some t0 := by
    simp only [l1]
    rw [time_tracker.log_registry, time_tracker.log_hash_code]
    exact hb
  have h2 : l2.value = duration_cast clk P (t2 - t0) :=
    time_tracker.log_value clk P _ key _ t2 t0 hl1
  have hl2 : l2.sBeginPointByKey.find (key, l2.stream.hash_code) = some t0 := by
    simp only [l2]
    rw [time_tracker.log_registry, time_tracker.log_hash_code]
    exact hl1
  have h3 : e.value = duration_cast clk P (t3 - t0) :=
    time_tracker.end_value clk P _ key _ t3 t0 hl2
  refine ⟨h1, h2, h3, ?_, ?_, ?_⟩
  · rw [h1]; exact duration_cast_nonneg clk P (by omega)
  · rw [h1, h2]; exact duration_cast_mono clk P (by omega)
  · rw [h2, h3]; exact duration_cast_mono clk P (by omega)

theorem elapsed_nondecreasing_witness :
    ((0 : Int) ≤ 1500 ∧ (1500 : Int) ≤ 3000000 ∧ (3000000 : Int) ≤ 5000999) ∧
    (time_tracker.log nano_clock .microseconds
      (time_tracker.begin nano_clock .microseconds map.empty "load" cout 0).sBeginPointByKey
      "load" cout 1500).value = 1 ∧
    (0 : Int) ≤ (time_tracker.log nano_clock .microseconds
      (time_tracker.begin nano_clock .microseconds map.empty "load" cout 0).sBeginPointByKey
      "load" cout 1500).value :=
  ⟨by decide,
    (elapsed_nondecreasing nano_clock .microseconds map.empty "load" cout 0 1500 3000000
      5000999 (by decide) (by decide) (by decide)).1.trans (by decide),
    (elapsed_nondecreasing nano_clock .microseconds map.empty "load" cout 0 1500 3000000
      5000999 (by decide) (by decide) (by decide)).2.2.2.1⟩

end tracker_claims

/-! ## The scope timer -/

theorem wrap64_of_lt {n : Nat} (h : n < 2 ^ 64) : wrap64 n = n :=
  Nat.mod_eq_of_lt (by norm_num at h; exact h)

theorem wrap64_lt (n : Nat) : wrap64 n < 2 ^ 64 := by
  unfold wrap64
  have := Nat.mod_lt n (by norm_num : 0 < 18446744073709551616)
  norm_num
  exact this

theorem wrap64_add_to_ull (t : Nat) (d : Int) :
    ((wrap64 (t + to_ull d) : Nat) : Int) = ((t : Int) + d) % 18446744073709551616 := by
  unfold wrap64 to_ull
  have h := Int.toNat_of_nonneg
    (Int.emod_nonneg d (by norm_num : (18446744073709551616 : Int) ≠ 0))
  push_cast
  rw [h]
  omega

section scope_claims

variable {Scope F : Type} [DecidableEq Scope] [ToString Scope]
  [Zero F] [NatCast F] [IntCast F] [Add F] [Mul F] [Div F]

theorem scope_time.report_sCalls (P : Precision) (showF : F → String) (st : Statics Scope F)
    (mScope : Scope) (mStream : Stream) (d : Int) :
    (scope_time.report P showF st mScope mStream d).1.sCalls
      = st.sCalls.assign mScope (wrap64 (st.sCalls.index mScope + 1)) := rfl

theorem scope_time.report_sTotal (P : Precision) (showF : F → String) (st : Statics Scope F)
    (mScope : Scope) (mStream : Stream) (d : Int) :
    (scope_time.report P showF st mScope mStream d).1.sTotal
      = st.sTotal.assign mScope (wrap64 (st.sTotal.index mScope + to_ull d)) := rfl

theorem scope_time.report_sAvg (P : Precision) (showF : F → String) (st : Statics Scope F)
    (mScope : Scope) (mStream : Stream) (d : Int) :
    (scope_time.report P showF st mScope mStream d).1.sAvg
      = st.sAvg.assign mScope
          ((((st.sCalls.index mScope : Nat) : F) * st.sAvg.index mScope + ((d : Int) : F))
            / ((wrap64 (st.sCalls.index mScope + 1) : Nat) : F)) := rfl

theorem scope_time.report_count_in_range (P : Precision) (showF : F → String)
    (st : Statics Scope F) (mScope : Scope) (mStream : Stream) (d : Int)
    (hc : st.sCalls.index mScope + 1 < 2 ^ 64) :
    (scope_time.report P showF st mScope mStream d).1.sCalls
      = st.sCalls.assign mScope (st.sCalls.index mScope + 1) ∧
    (scope_time.report P showF st mScope mStream d).1.sAvg
      = st.sAvg.assign mScope
        ((((st.sCalls.index mScope : Nat) : F) * st.sAvg.index mScope + ((d : Int) : F))
          / ((st.sCalls.index mScope + 1 : Nat) : F)) := by
  refine ⟨?_, ?_⟩
  · simp only [scope_time.report_sCalls, wrap64_of_lt hc]
  · simp only [scope_time.report_sAvg, wrap64_of_lt hc]

theorem scope_time.report_total_cast (P : Precision) (showF : F → String)
    (st : Statics Scope F) (mScope : Scope) (mStream : Stream) (d : Int) :
    (((scope_time.report P showF st mScope mStream d).1.sTotal.index mScope : Nat) : Int)
      = ((st.sTotal.index mScope : Int) + d) % 18446744073709551616 := by
  rw [scope_time.report_sTotal, map.index_assign_self]
  exact wrap64_add_to_ull _ d

theorem scope_time.report_hash_code (P : Precision) (showF : F → String)
    (st : Statics Scope F) (mScope : Scope) (mStream : Stream) (d : Int) :
    (scope_time.report P showF st mScope mStream d).2.hash_code = mStream.hash_code := by
  simp [scope_time.report]

theorem scope_time.report_out (P : Precision) (showF : F → String) (st : Statics Scope F)
    (mScope : Scope) (mStream : Stream) (d : Int) :
    (scope_time.report P showF st mScope mStream d).2.out
      = mStream.out ++ ("'" ++ toString mScope ++ "'" ++ " " ++ toString d ++ " ["
        ++ duration_to_str P ++ "]" ++ " avg. "
        ++ showF ((scope_time.report P showF st mScope mStream d).1.sAvg.index mScope)
        ++ " [" ++ duration_to_str P ++ "]" ++ " cnt. "
        ++ toString ((scope_time.report P showF st mScope mStream d).1.sCalls.index mScope)
        ++ " ttl. "
        ++ toString ((scope_time.report P showF st mScope mStream d).1.sTotal.index mScope)
        ++ " [" ++ duration_to_str P ++ "]"
        ++ (if mStream.is_ios_base then "\n" else "")) := by
  rw [scope_time.report_sAvg, scope_time.report_sCalls, scope_time.report_sTotal]
  unfold scope_time.report
  simp only [Stream.endl_out, Stream.shl_out, Stream.shl_is_ios_base, String.append_assoc]

/-- C9: for every label, sink and elapsed sample, the report of a scope timer appends
exactly `'<label>' <elapsed> [<unit>] avg. <avg> [<unit>] cnt. <count> ttl. <total> [<unit>]`,
in which `<elapsed>` is the new sample, `<avg>`, `<count>` and `<total>` are read from the
statistics as they are after this report has updated them, the three units are the
suffix of the precision, and one newline follows exactly when the sink derives from
`std::ios_base` and none otherwise; the sample of a destructor run is the time from
construction to destruction truncated to the precision. -/
theorem scope_report_text (clk : ratio) (P : Precision) (showF : F → String)
    (st : Statics Scope F) (mScope : Scope) (mStream : Stream) (d mBegin now : Int) :
    (scope_time.report P showF st mScope mStream d).2.out
      = mStream.out ++ ("'" ++ toString mScope ++ "'" ++ " " ++ toString d ++ " ["
        ++ duration_to_str P ++ "]" ++ " avg. "
        ++ showF ((scope_time.report P showF st mScope mStream d).1.sAvg.index mScope)
        ++ " [" ++ duration_to_str P ++ "]" ++ " cnt. "
        ++ toString ((scope_time.report P showF st mScope mStream d).1.sCalls.index mScope)
        ++ " ttl. "
        ++ toString ((scope_time.report P showF st mScope mStream d).1.sTotal.index mScope)
        ++ " [" ++ duration_to_str P ++ "]"
        ++ (if mStream.is_ios_base then "\n" else "")) ∧
    (scope_time.report P showF st mScope mStream d).1.sCalls.index mScope
      = wrap64 (st.sCalls.index mScope + 1) ∧
    (scope_time.report P showF st mScope mStream d).1.sTotal.index mScope
      = wrap64 (st.sTotal.index mScope + to_ull d) ∧
    (scope_time.report P showF st mScope mStream d).1.sAvg.index mScope
      = (((st.sCalls.index mScope : Nat) : F) * st.sAvg.index mScope + ((d : Int) : F))
        / ((wrap64 (st.sCalls.index mScope + 1) : Nat) : F) ∧
    scope_time.destructor clk P showF st mScope mStream mBegin now
      = scope_time.report P showF st mScope mStream (duration_cast clk P (now - mBegin)) := by
  refine ⟨scope_time.report_out P showF st mScope mStream d, ?_, ?_, ?_, rfl⟩
  · rw [scope_time.report_sCalls, map.index_assign_self]
  · rw [scope_time.report_sTotal, map.index_assign_self]
  · rw [scope_time.report_sAvg, map.index_assign_self]

/-- C2, as amended: every report, whatever its sample, leaves the records of all other
labels as they were and reads a missing record as count 0, average 0, total 0. Whenever
the count before is below `2^64 - 1`, the count after is exactly count + 1 (strictly
greater) and the new average is `(count * avg + sample) / (count + 1)` computed from the
count and average before the report. The total after is the old total plus the sample
reduced modulo `2^64`: it is the old total plus the sample whenever that lies in
`[0, 2^64)`, and it is then never smaller than before whenever the sample is
non-negative. -/
theorem scope_update_monotone (P : Precision) (showF : F → String) (st : Statics Scope F)
    (mScope : Scope) (mStream : Stream) (d : Int) :
    (∀ other : Scope, other ≠ mScope →
      (scope_time.report P showF st mScope mStream d).1.sCalls.find other
        = st.sCalls.find other ∧
      (scope_time.report P showF st mScope mStream d).1.sAvg.find other
        = st.sAvg.find other ∧
      (scope_time.report P showF st mScope mStream d).1.sTotal.find other
        = st.sTotal.find other) ∧
    ((st.sCalls.find mScope = none → st.sCalls.index mScope = 0) ∧
      (st.sAvg.find mScope = none → st.sAvg.index mScope = 0) ∧
      (st.sTotal.find mScope = none → st.sTotal.index mScope = 0)) ∧
    (st.sCalls.index mScope + 1 < 2 ^ 64 →
      (scope_time.report P showF st mScope mStream d).1.sCalls.find mScope
        = some (st.sCalls.index mScope + 1) ∧
      st.sCalls.index mScope
        < (scope_time.report P showF st mScope mStream d).1.sCalls.index mScope ∧
      (scope_time.report P showF st mScope mStream d).1.sAvg.find mScope
        = some ((((st.sCalls.index mScope : Nat) : F) * st.sAvg.index mScope
            + ((d : Int) : F)) / ((st.sCalls.index mScope + 1 : Nat) : F))) ∧
    (((scope_time.report P showF st mScope mStream d).1.sTotal.index mScope : Nat) : Int)
      = ((st.sTotal.index mScope : Int) + d) % 2 ^ 64 ∧
    (0 ≤ (st.sTotal.index mScope : Int) + d → (st.sTotal.index mScope : Int) + d < 2 ^ 64 →
      (((scope_time.report P showF st mScope mStream d).1.sTotal.index mScope : Nat) : Int)
        = (st.sTotal.index mScope : Int) + d) ∧
    (0 ≤ d → (st.sTotal.index mScope : Int) + d < 2 ^ 64 →
      st.sTotal.index mScope
        ≤ (scope_time.report P showF st mScope mStream d).1.sTotal.index mScope) := by
  have hT := scope_time.report_total_cast P showF st mScope mStream d
  refine ⟨?_, ⟨?_, ?_, ?_⟩, ?_, ?_, ?_, ?_⟩
  · intro other ho
    refine ⟨?_, ?_, ?_⟩
    · rw [scope_time.report_sCalls]; exact map.find_assign_ne _ _ ho
    · rw [scope_time.report_sAvg]; exact map.find_assign_ne _ _ ho
    · rw [scope_time.report_sTotal]; exact map.find_assign_ne _ _ ho
  · intro h; simp only [map.find] at h; simp [map.index, h]
  · intro h; simp only [map.find] at h; simp [map.index, h]
  · intro h; simp only [map.find] at h; simp [map.index, h]
  · intro hc
    obtain ⟨hC, hA⟩ := scope_time.report_count_in_range P showF st mScope mStream d hc
    refine ⟨?_, ?_, ?_⟩
    · rw [hC]; exact map.find_assign_self _ _ _
    · rw [hC, map.index_assign_self]; omega
    · rw [hA]; exact map.find_assign_self _ _ _
  · rw [hT]; norm_num
  · intro h0 h1
    norm_num at h1
    rw [hT]
    exact Int.emod_eq_of_lt h0 h1
  · intro h0 h1
    norm_num at h1
    have h2 : (0 : Int) ≤ (st.sTotal.index mScope : Int) := Int.ofNat_nonneg _
    rw [Int.emod_eq_of_lt (by omega) h1] at hT
    omega

theorem scope_update_monotone_witness :
    ("g" ≠ "f" ∧ (Statics.init : Statics String ℚ).sCalls.index "f" + 1 < 2 ^ 64 ∧
      (0 : Int) ≤ 3000 ∧
      (((Statics.init : Statics String ℚ).sTotal.index "f" : Nat) : Int) + 3000 < 2 ^ 64) ∧
    (scope_time.report .microseconds exact_avg (Statics.init : Statics String ℚ) "f" cout
      3000).1.sCalls.find "g" = (Statics.init : Statics String ℚ).sCalls.find "g" ∧
    (scope_time.report .microseconds exact_avg (Statics.init : Statics String ℚ) "f" cout
      3000).1.sCalls.find "f" = some 1 ∧
    (Statics.init : Statics String ℚ).sTotal.index "f"
      ≤ (scope_time.report .microseconds exact_avg (Statics.init : Statics String ℚ) "f" cout
        3000).1.sTotal.index "f" :=
  ⟨⟨by decide, by decide, by decide, by decide⟩,
    ((scope_update_monotone .microseconds exact_avg (Statics.init : Statics String ℚ) "f"
      cout 3000).1 "g" (by decide)).1,
    ((scope_update_monotone .microseconds exact_avg (Statics.init : Statics String ℚ) "f"
      cout 3000).2.2.1 (by decide)).1,
    (scope_update_monotone .microseconds exact_avg (Statics.init : Statics String ℚ) "f"
      cout 3000).2.2.2.2.2 (by decide) (by decide)⟩

/-- C2 as stated fails: a timer whose clock reading at destruction (0) lies before the one
at construction (1000 ns) has the sample -1 us, and its report takes the stored total of
the label from 5 down to 4. -/
theorem scope_total_can_decrease :
    duration_cast nano_clock .microseconds (0 - 1000) = -1 ∧
    ((scope_time.destructor nano_clock .microseconds exact_avg
      (Statics.init : Statics String ℚ) "f" cout 0 5000).1.sTotal.index "f" = 5 ∧
    (scope_time.destructor nano_clock .microseconds exact_avg
      (scope_time.destructor nano_clock .microseconds exact_avg
        (Statics.init : Statics String ℚ) "f" cout 0 5000).1 "f" cout 1000 0).1.sTotal.index "f"
      = 4) ∧
    (scope_time.destructor nano_clock .microseconds exact_avg
      (scope_time.destructor nano_clock .microseconds exact_avg
        (Statics.init : Statics String ℚ) "f" cout 0 5000).1 "f" cout 1000 0).1.sTotal.index "f"
      < (scope_time.destructor nano_clock .microseconds exact_avg
        (Statics.init : Statics String ℚ) "f" cout 0 5000).1.sTotal.index "f" := by
  refine ⟨by decide, ⟨by decide, by decide⟩, by decide⟩

theorem scope_time.reports_stats (P : Precision) (showF : ℚ → String) (mScope : Scope)
    (ds : List Int) :
    ∀ (s : Statics Scope ℚ × Stream) (σ : ℚ),
      s.1.sCalls.index mScope + ds.length < 2 ^ 64 →
      s.1.sTotal.index mScope < 2 ^ 64 →
      ((s.1.sCalls.index mScope : Nat) : ℚ) * s.1.sAvg.index mScope = σ →
      (scope_time.reports P showF mScope s ds).1.sCalls.index mScope
        = s.1.sCalls.index mScope + ds.length ∧
      (((scope_time.reports P showF mScope s ds).1.sTotal.index mScope : Nat) : Int)
        = ((s.1.sTotal.index mScope : Int) + ds.sum) % 18446744073709551616 ∧
      (((scope_time.reports P showF mScope s ds).1.sCalls.index mScope : Nat) : ℚ)
          * (scope_time.reports P showF mScope s ds).1.sAvg.index mScope
        = σ + ((ds.sum : Int) : ℚ) := by
  induction ds with
  | nil =>
    intro s σ _ ht hinv
    norm_num at ht
    simp only [scope_time.reports, List.length_nil, List.sum_nil, add_zero, Int.cast_zero]
    refine ⟨trivial, ?_, hinv⟩
    omega
  | cons d ds ih =>
    intro s σ hlen ht hinv
    simp only [List.length_cons] at hlen
    obtain ⟨hC, hA⟩ := scope_time.report_count_in_range P showF s.1 mScope s.2 d (by omega)
    have hT := scope_time.report_total_cast P showF s.1 mScope s.2 d
    have hTlt : (scope_time.report P showF s.1 mScope s.2 d).1.sTotal.index mScope < 2 ^ 64 := by
      rw [scope_time.report_sTotal, map.index_assign_self]
      exact wrap64_lt _
    have hc1 : (((s.1.sCalls.index mScope + 1 : Nat)) : ℚ) ≠ 0 :=
      Nat.cast_ne_zero.mpr (Nat.succ_ne_zero (s.1.sCalls.index mScope))
    have step := ih (scope_time.report P showF s.1 mScope s.2 d) (σ + ((d : Int) : ℚ))
      (by rw [hC, map.index_assign_self]; omega) hTlt
      (by rw [hC, hA, map.index_assign_self, map.index_assign_self,
            mul_div_cancel₀ _ hc1, hinv])
    rw [hC, map.index_assign_self, hT] at step
    simp only [scope_time.reports, List.length_cons, List.sum_cons]
    refine ⟨?_, ?_, ?_⟩
    · rw [step.1]; omega
    · rw [step.2.1]; omega
    · rw [step.2.2]; push_cast; ring

/-- C1, as amended: starting from no record for the label, after N >= 1 reports on it
(N below `2^64`) with samples d1..dN of any sign, the stored count is N, the stored total
is d1 + ... + dN reduced modulo `2^64`, and the stored average, computed in exact
arithmetic, is (d1 + ... + dN) / N; so whenever the sum of the samples lies in
`[0, 2^64)` the stored total equals the sum and the stored average equals
total / count. -/
theorem scope_stats_after_reports (P : Precision) (showF : ℚ → String)
    (st : Statics Scope ℚ) (mScope : Scope) (mStream : Stream) (ds : List Int)
    (hnew : st.sCalls.find mScope = none ∧ st.sAvg.find mScope = none ∧
      st.sTotal.find mScope = none)
    (hne : ds ≠ []) (hlen : ds.length < 2 ^ 64) :
    (scope_time.reports P showF mScope (st, mStream) ds).1.sCalls.index mScope = ds.length ∧
    (((scope_time.reports P showF mScope (st, mStream) ds).1.sTotal.index mScope : Nat) : Int)
      = ds.sum % 2 ^ 64 ∧
    (scope_time.reports P showF mScope (st, mStream) ds).1.sAvg.index mScope
      = ((ds.sum : Int) : ℚ) / ((ds.length : Nat) : ℚ) ∧
    (0 ≤ ds.sum → ds.sum < 2 ^ 64 →
      (((scope_time.reports P showF mScope (st, mStream) ds).1.sTotal.index mScope : Nat)
        : Int) = ds.sum ∧
      (scope_time.reports P showF mScope (st, mStream) ds).1.sAvg.index mScope
        = (((scope_time.reports P showF mScope (st, mStream) ds).1.sTotal.index mScope
            : Nat) : ℚ)
          / (((scope_time.reports P showF mScope (st, mStream) ds).1.sCalls.index mScope
            : Nat) : ℚ)) := by
  obtain ⟨h1, h2, h3⟩ := hnew
  have c0 : st.sCalls.index mScope = 0 := by
    simp only [map.find] at h1; simp [map.index, h1]
  have a0 : st.sAvg.index mScope = 0 := by
    simp only [map.find] at h2; simp [map.index, h2]
  have t0 : st.sTotal.index mScope = 0 := by
    simp only [map.find] at h3; simp [map.index, h3]
  have key := scope_time.reports_stats P showF mScope ds (st, mStream) 0
    (by simp only [c0]; omega) (by simp only [t0]; norm_num)
    (by simp only [c0, a0]; norm_num)
  simp only [c0, t0, zero_add, Nat.cast_zero] at key
  obtain ⟨k1, k2, k3⟩ := key
  have hN : ((ds.length : Nat) : ℚ) ≠ 0 :=
    Nat.cast_ne_zero.mpr (fun h => hne (List.length_eq_zero.mp h))
  have kavg : (scope_time.reports P showF mScope (st, mStream) ds).1.sAvg.index mScope
      = ((ds.sum : Int) : ℚ) / ((ds.length : Nat) : ℚ) := by
    rw [k1] at k3
    rw [← k3, mul_div_cancel_left₀ _ hN]
  refine ⟨k1, ?_, kavg, ?_⟩
  · rw [k2]; norm_num
  · intro h0 hlt
    norm_num at hlt
    have ktot : (((scope_time.reports P showF mScope (st, mStream) ds).1.sTotal.index mScope
        : Nat) : Int) = ds.sum := by
      rw [k2]; exact Int.emod_eq_of_lt h0 hlt
    refine ⟨ktot, ?_⟩
    rw [kavg, k1, ← ktot, Int.cast_natCast]

theorem scope_stats_after_reports_witness :
    (((Statics.init : Statics String ℚ).sCalls.find "f" = none ∧
        (Statics.init : Statics String ℚ).sAvg.find "f" = none ∧
        (Statics.init : Statics String ℚ).sTotal.find "f" = none) ∧
      ([5, -1] : List Int) ≠ [] ∧ ([5, -1] : List Int).length < 2 ^ 64 ∧
      0 ≤ ([5, -1] : List Int).sum ∧ ([5, -1] : List Int).sum < 2 ^ 64) ∧
    (scope_time.reports .microseconds exact_avg "f"
      ((Statics.init : Statics String ℚ), cout) [5, -1]).1.sCalls.index "f" = 2 ∧
    (((scope_time.reports .microseconds exact_avg "f"
      ((Statics.init : Statics String ℚ), cout) [5, -1]).1.sTotal.index "f" : Nat) : Int)
      = 4 :=
  ⟨⟨⟨rfl, rfl, rfl⟩, by decide, by decide, by decide, by decide⟩,
    (scope_stats_after_reports .microseconds exact_avg (Statics.init : Statics String ℚ) "f"
      cout [5, -1] ⟨rfl, rfl, rfl⟩ (by decide) (by decide)).1,
    ((scope_stats_after_reports .microseconds exact_avg (Statics.init : Statics String ℚ) "f"
      cout [5, -1] ⟨rfl, rfl, rfl⟩ (by decide) (by decide)).2.2.2 (by decide) (by decide)).1⟩

/-- C1 as stated fails: a single timer whose clock reading at destruction (0) lies before the
one at construction (1000 ns) has the sample -1 us; after its report the stored count is 1
and the stored average is -1, but the stored total is `2^64 - 1`, which is neither the sum
of the samples nor count times average. -/
theorem scope_total_wraps_on_negative_sample :
    duration_cast nano_clock .microseconds (0 - 1000) = -1 ∧
    (scope_time.reports .microseconds exact_avg "f"
      ((Statics.init : Statics String ℚ), cout) [-1]).1.sCalls.index "f" = 1 ∧
    (scope_time.reports .microseconds exact_avg "f"
      ((Statics.init : Statics String ℚ), cout) [-1]).1.sTotal.index "f"
      = 18446744073709551615 ∧
    (scope_time.reports .microseconds exact_avg "f"
      ((Statics.init : Statics String ℚ), cout) [-1]).1.sAvg.index "f" = -1 ∧
    (((scope_time.reports .microseconds exact_avg "f"
      ((Statics.init : Statics String ℚ), cout) [-1]).1.sTotal.index "f" : Nat) : Int)
      ≠ ([-1] : List Int).sum ∧
    (scope_time.reports .microseconds exact_avg "f"
      ((Statics.init : Statics String ℚ), cout) [-1]).1.sAvg.index "f"
      ≠ (((scope_time.reports .microseconds exact_avg "f"
          ((Statics.init : Statics String ℚ), cout) [-1]).1.sTotal.index "f" : Nat) : ℚ)
        / (((scope_time.reports .microseconds exact_avg "f"
          ((Statics.init : Statics String ℚ), cout) [-1]).1.sCalls.index "f" : Nat) : ℚ) := by
  have hc : (scope_time.reports .microseconds exact_avg "f"
      ((Statics.init : Statics String ℚ), cout) [-1]).1.sCalls.index "f" = 1 := by decide
  have ht : (scope_time.reports .microseconds exact_avg "f"
      ((Statics.init : Statics String ℚ), cout) [-1]).1.sTotal.index "f"
      = 18446744073709551615 := by decide
  have ha : (scope_time.reports .microseconds exact_avg "f"
      ((Statics.init : Statics String ℚ), cout) [-1]).1.sAvg.index "f" = -1 := by
    simp only [scope_time.reports, scope_time.report_sAvg, map.index_assign_self]
    norm_num [Statics.init, map.index, map.empty, wrap64]
  refine ⟨by decide, hc, ht, ha, ?_, ?_⟩
  · rw [ht]; decide
  · rw [ha, ht, hc]; norm_num

end scope_claims

end mt
